import Mathlib

/-!
Shallow embedding of the package source/registry/cache subsystem of
`dcos/api/package.py`, together with proofs about its specification.

Modelling conventions:
* Python strings that undergo case mapping are modelled as `List Nat`
  (code points); the case-mapping functions model Python `str.lower` /
  `str.upper` on the ASCII range.
* Python `(value, error)` tuple returns are modelled as pairs of `Option`s;
  uncaught Python exceptions are modelled with `Except PyExc`.
* The file system is passed explicitly: directory listings, directory
  predicates and file readers are parameters of the functions that the
  Python code lets read the disk ambiently.
-/

namespace DcosPackage

/-- Model of `dcos.api.package.Error`: a packaging error carrying a message
(`Error.__init__` / `Error.error` in `package.py`). -/
structure Error where
  message : String
deriving DecidableEq, Repr

/-- Uncaught Python exceptions that the embedded code can raise. -/
inductive PyExc where
  | indexError
  | typeError
  | notImplementedError
deriving DecidableEq, Repr

/-! ### Python string primitives (ASCII case model) -/

/-- Model of Python `str.lower` on one code point (ASCII range: `A`–`Z`
is 65–90, mapped to 97–122; every other code point is unchanged). -/
def pyLowerCode (n : Nat) : Nat :=
  if 65 ≤ n ∧ n ≤ 90 then n + 32 else n

/-- Model of Python `str.upper` on one code point (ASCII range: `a`–`z`
is 97–122, mapped to 65–90; every other code point is unchanged). -/
def pyUpperCode (n : Nat) : Nat :=
  if 97 ≤ n ∧ n ≤ 122 then n - 32 else n

/-- A Python string under case mapping: a list of code points. -/
abbrev PyStr := List Nat

/-- Model of Python `s.lower()`. -/
def pyLower (s : PyStr) : PyStr := s.map pyLowerCode

/-- Model of Python `s.upper()`. -/
def pyUpper (s : PyStr) : PyStr := s.map pyUpperCode

/-- `leadMatch needle hay` holds when `needle` is an initial segment of
`hay` (helper for the substring test). -/
def leadMatch : PyStr → PyStr → Bool
  | [], _ => true
  | _ :: _, [] => false
  | a :: as, b :: bs => a == b && leadMatch as bs

/-- Model of Python `needle in hay` on strings: contiguous substring
containment (the empty needle is contained in every string). -/
def pyIn (needle : PyStr) : PyStr → Bool
  | [] => leadMatch needle []
  | b :: bs => leadMatch needle (b :: bs) || pyIn needle bs

/-! ### Index entries and search ranking -/

/-- One entry of a source's package index (`repo/meta/index.json`), as
consumed by `search` / `_search_rank`: the fields the ranking reads, plus
the `versions` mapping that `clean_package_entry` rewrites.  `versions`
maps a package version to the corresponding software version. -/
structure IndexEntry where
  name : PyStr
  versions : List (PyStr × PyStr)
  tags : List PyStr
  description : PyStr
deriving DecidableEq, Repr

/-- An index entry after `clean_package_entry` in `search`: the
`versions` dict is replaced by the plain list of its keys. -/
structure CleanEntry where
  name : PyStr
  versions : List PyStr
  tags : List PyStr
  description : PyStr
deriving DecidableEq, Repr

/-- Model of `clean_package_entry` (local function of `search`,
`package.py` lines 126–131): copy the entry and replace `versions` with
`list(entry['versions'].keys())`. -/
def clean_package_entry (entry : IndexEntry) : CleanEntry :=
  { name := entry.name
    versions := entry.versions.map (·.1)
    tags := entry.tags
    description := entry.description }

/-- Model of `_search_rank` (`package.py` lines 150–172): starting from
`0.0`, add `2.0` when the lowercased query occurs in the lowercased name,
`1.0` for each tag containing it, and `0.5` when it occurs in the
lowercased description.  The float arithmetic involved is exact, so the
rank is modelled as a rational number. -/
def search_rank (pkg : IndexEntry) (query : PyStr) : ℚ :=
  let q := pyLower query
  let result : ℚ := 0
  let result := if pyIn q (pyLower pkg.name) then result + 2 else result
  let result := pkg.tags.foldl
    (fun acc tag => if pyIn q (pyLower tag) then acc + 1 else acc) result
  if pyIn q (pyLower pkg.description) then result + 1/2 else result

/-- The minimum rank required to appear in search results
(`threshold = 0.5` in `search`, `package.py` line 123). -/
def searchThreshold : ℚ := 1/2

/-- The inner loop of `search` over one registry's index entries
(`package.py` lines 139–142): keep, in order, each entry whose rank
reaches the threshold, after `clean_package_entry`. -/
def source_results (query : PyStr) (pkgs : List IndexEntry) : List CleanEntry :=
  pkgs.foldl
    (fun acc pkg =>
      if searchThreshold ≤ search_rank pkg query then
        acc ++ [clean_package_entry pkg]
      else acc) []

/-- The ranking formula as the specification words it: `2.0` times the
indicator of a name match, plus `1.0` per matching tag, plus `0.5` times
the indicator of a description match, all case-insensitively. -/
def rankSpecFormula (pkg : IndexEntry) (query : PyStr) : ℚ :=
  2 * (if pyIn (pyLower query) (pyLower pkg.name) then (1 : ℚ) else 0) +
    (pkg.tags.filter (fun tag => pyIn (pyLower query) (pyLower tag))).length +
    (1/2) * (if pyIn (pyLower query) (pyLower pkg.description) then (1 : ℚ) else 0)

/-! ### JSON values and Python dicts -/

/-- A JSON value, as produced by `json.load`/`json.loads`.  Objects are
association lists in insertion order (Python dicts preserve insertion
order; later bindings shadow earlier ones on lookup). -/
inductive JVal where
  | null
  | bool (b : Bool)
  | num (n : Int)
  | str (s : String)
  | arr (elems : List JVal)
  | obj (fields : List (String × JVal))

/-- Whether a JSON value is an object (a Python dict). -/
def JVal.isObj : JVal → Bool
  | .obj _ => true
  | _ => false

/-- A Python dict with `String` keys, as an association list in insertion
order. -/
abbrev PyDict (V : Type) := List (String × V)

/-- Lookup in a Python dict modelled as an association list: the binding
that counts is the **last** one for the key (matching `dict(...)`
construction, where later pairs overwrite earlier ones). -/
def dictGet {V : Type} (d : PyDict V) (k : String) : Option V :=
  match d with
  | [] => none
  | p :: rest =>
    match dictGet rest k with
    | some v => some v
    | none => if p.1 == k then some p.2 else none

/-- Model of Python `k in d` for a dict. -/
def dictHasKey {V : Type} (d : PyDict V) (k : String) : Bool :=
  d.any (fun p => p.1 == k)

/-- Model of `d[k] = v` on a Python dict: overwrite in place when the key
exists (keeping its position), append otherwise. -/
def dictSet {V : Type} (d : PyDict V) (k : String) (v : V) : PyDict V :=
  if dictHasKey d k then
    d.map (fun p => if p.1 == k then (k, v) else p)
  else d ++ [(k, v)]

/-- Model of Python `dict(pairs)`: insert the pairs left to right, later
pairs overwriting earlier ones. -/
def dictOfList {V : Type} (pairs : List (String × V)) : PyDict V :=
  pairs.foldl (fun acc p => dictSet acc p.1 p.2) []

/-! ### Install-option merging (`install`, `package.py` line 58) -/

/-- Model of the option merge inside `install` (`package.py` line 58):
`options = dict(list(default_options.items()) + list(user_options.items()))`.
`.items()` of a dict is its association list in insertion order. -/
def installMergeOptions {V : Type} (default_options user_options : PyDict V) :
    PyDict V :=
  dictOfList (default_options ++ user_options)

/-! ### Default extraction (`_extract_default_values`, lines 175–191) -/

/-- Model of `'default' in v` followed by `v['default']` for one property
value of the schema (`properties[p]` in `_extract_default_values`): on a
mapping it is key membership and indexing; on any non-mapping value the
membership test or the subsequent string indexing raises (we do not need
the non-mapping branches — claims only exercise well-formed schemas — but
they are kept as the raised `TypeError`). -/
def propDefault (v : JVal) : Except PyExc (Option JVal) :=
  match v with
  | .obj fields =>
    if dictHasKey fields "default" then .ok (dictGet fields "default")
    else .ok none
  | _ => .error .typeError

/-- The dict comprehension of `_extract_default_values`
(`package.py` lines 187–189): over the properties in declaration order,
keep `(p, properties[p]['default'])` for each property whose value carries
a `'default'` key. -/
def extractDefaultsList (props : PyDict JVal) :
    Except PyExc (PyDict JVal) :=
  match props with
  | [] => .ok []
  | (p, v) :: rest => do
    let d ← propDefault v
    let tail ← extractDefaultsList rest
    match d with
    | some dv => .ok ((p, dv) :: tail)
    | none => .ok tail

/-- Model of `_extract_default_values` (`package.py` lines 175–191):
read `properties` and `type` from the schema dict; unless the type is the
string `"object"` and `properties` is present, return the empty dict with
no error; otherwise collect the declared defaults.  Iterating a
non-mapping `properties` value makes the Python loop body raise; this is
modelled as `TypeError` (never exercised by a well-formed schema). -/
def extract_default_values (config_schema : PyDict JVal) :
    Except PyExc (PyDict JVal × Option Error) := do
  let properties := dictGet config_schema "properties"
  let schema_type := dictGet config_schema "type"
  let isObject := match schema_type with
    | some (.str s) => s == "object"
    | _ => false
  if !isObject || properties.isNone then
    return ([], none)
  else
    match properties with
    | some (.obj props) => do
      let defaults ← extractDefaultsList props
      return (defaults, none)
    | some _ => .error .typeError
    | none => return ([], none)

/-! ### Packages on disk (`Package`, `package.py` lines 670–825) -/

/-- Model of a constructed `Package` object: it stores the path it was
constructed with (`Package.__init__`). -/
structure Package where
  path : String
deriving DecidableEq, Repr

/-- Model of `str.title()` applied to a one-character string, as in
`package_name[0].title()` (ASCII model: a lowercase letter is mapped to
the corresponding uppercase letter). -/
def titleChar (c : Char) : Char := c.toUpper

/-- Model of `Registry.get_package` (`package.py` lines 637–667) over a
directory oracle `isDir` (modelling `os.path.isdir`).  Note the source's
emptiness guard reads `if len(package_name) is 0:` and then builds the
tuple `(None, Error('Package name must not be empty.'))` **without
returning it**, so for the empty name control falls through to
`package_name[0]`, which raises `IndexError`. -/
def get_package (base_path : String) (isDir : String → Bool)
    (package_name : String) : Except PyExc (Option Package × Option Error) :=
  match package_name.toList with
  | [] => .error .indexError
  | c :: _ =>
    let first_character := String.singleton (titleChar c)
    let package_path :=
      base_path ++ "/repo/packages/" ++ first_character ++ "/" ++ package_name
    if !(isDir package_path) then
      .ok (none, some ⟨s!"Package [{package_name}] not found"⟩)
    else
      .ok (some ⟨package_path⟩, none)

/-- Model of `Package.package_versions` (`package.py` lines 768–780):
from the directory listing of the package path (`os.listdir`, **in
whatever order the operating system returns entries, not sorted, and
including non-directory entries**), keep the names not starting with `'.'`
and reverse the resulting list in place.  Entry names are code-point
lists; `46` is `'.'`. -/
def package_versions (listing : List PyStr) : List PyStr :=
  let vs := listing.filter (fun f => !(leadMatch [46] f))
  vs.reverse

/-- Model of Python `list.sort()` on a list of strings: stable ascending
sort under the lexicographic code-point order.  Because that order is
linear, every correct ascending sort returns the same list, so an
insertion sort is an exact model. -/
def pySortAsc (l : List PyStr) : List PyStr :=
  List.insertionSort (· ≤ ·) l

/-- Model of `Package.latest_version` (`package.py` lines 798–812): sort
the versions ascending and return the last element; with no versions,
return an `Error` and no version. -/
def latest_version (listing : List PyStr) : Option PyStr × Option Error :=
  let pkg_versions := package_versions listing
  if pkg_versions.length == 0 then
    (none, some ⟨"No versions found for package"⟩)
  else
    ((pySortAsc pkg_versions).getLast?, none)

/-- `Package.package_versions` as the specification words it (for
comparison with the embedded `package_versions`): the non-hidden names
**reverse-sorted by string comparison**. -/
def package_versions_claimed (listing : List PyStr) : List PyStr :=
  List.insertionSort (fun a b : PyStr => b ≤ a)
    (listing.filter (fun f => !(leadMatch [46] f)))

/-! ### Sources (`Source` and subclasses, `package.py` lines 377–550) -/

/-- The closed set of source variants constructed by `url_to_source`
(`FileSource`, `HttpSource`, `GitSource`), each holding its URL. -/
inductive Source where
  | file (url : String)
  | http (url : String)
  | git (url : String)
deriving DecidableEq, Repr

/-- The URL a source was constructed with (property `Source.url`). -/
def Source.url : Source → String
  | .file u => u
  | .http u => u
  | .git u => u

/-- Model of `HttpSource.copy_to_cache` (`package.py` lines 488–497): the
body is `raise NotImplementedError`, so for every target directory the
call **raises**; it neither returns `None` (success) nor returns an
`Error` value. -/
def httpCopyToCache (_target_dir : String) : Except PyExc (Option Error) :=
  .error .notImplementedError

/-- A character allowed in a URL scheme (RFC 3986, as accepted by
`urlparse`): letters, digits, `+`, `-`, `.`. -/
def isSchemeChar (c : Char) : Bool :=
  c.isAlphanum || c == '+' || c == '-' || c == '.'

/-- Model of `urlparse(url).scheme`: the text before the first `:`, when
present, non-empty, made of scheme characters and starting with a letter;
lower-cased.  Otherwise the empty string. -/
def pyScheme (url : String) : String :=
  let pre := url.takeWhile (fun c => c ≠ ':')
  if pre.length < url.length && !pre.isEmpty &&
      pre.toList.all isSchemeChar &&
      ((pre.toList.head?.map Char.isAlpha).getD false) then
    pre.toLower
  else ""

/-- Model of `url_to_source` (`package.py` lines 248–271): match the
URL's scheme against `file`, `http`/`https`, `git`; otherwise return no
source and an unsupported-protocol error. -/
def url_to_source (url : String) : Option Source × Option Error :=
  let scheme := pyScheme url
  if scheme == "file" then (some (.file url), none)
  else if scheme == "http" || scheme == "https" then (some (.http url), none)
  else if scheme == "git" then (some (.git url), none)
  else (none, some ⟨s!"Source URL uses unsupported protocol [{url}]"⟩)

/-- The two configuration keys the subsystem reads
(`config.get('package.sources')` and `config.get('package.cache')`). -/
structure Config where
  packageSources : Option (List String)
  packageCache : Option String

/-- Model of `list_sources` (`package.py` lines 227–245): with no
configured source list, `(None, [config_error])`; otherwise the
successfully parsed sources and the per-URI errors, both in order. -/
def list_sources (config : Config) : Option (List Source) × List Error :=
  match config.packageSources with
  | none => (none, [⟨"No configured value for [package.sources]"⟩])
  | some source_uris =>
    let results := source_uris.map url_to_source
    let sources := results.filterMap (·.1)
    let errs := results.filterMap (·.2)
    (some sources, errs)

/-- Model of `Source.local_cache` (`package.py` lines 399–412):
`None` when `package.cache` is unset, else `<cacheDir>/<hash>`.  `hashFn`
models `hashlib.sha1(url.encode('utf-8')).hexdigest()` (`Source.hash`,
lines 390–397), passed explicitly. -/
def local_cache (hashFn : String → String) (s : Source) (config : Config) :
    Option String :=
  match config.packageCache with
  | none => none
  | some cache_dir => some (cache_dir ++ "/" ++ hashFn s.url)

/-- Model of a `Registry` object (`package.py` lines 573–584): the
source and the base path it was constructed with (`None` possible, since
`local_cache` can return `None`). -/
structure Registry where
  source : Source
  basePath : Option String
deriving DecidableEq, Repr

/-- Model of `registries` (`package.py` lines 214–224): call
`list_sources`, **discard its error list**, and build one registry per
successfully parsed source.  When the configured source list is missing,
`list_sources` returns `None` for the sources and the comprehension
iterates over `None`, raising `TypeError`. -/
def registries (hashFn : String → String) (config : Config) :
    Except PyExc (List Registry) :=
  match (list_sources config).1 with
  | none => .error .typeError
  | some sources =>
    .ok (sources.map (fun s => ⟨s, local_cache hashFn s config⟩))

/-- Search results for one registry, grouped under its source
(`IndexEntries`, `package.py` lines 828–869). -/
structure IndexEntries where
  source : Source
  packages : List CleanEntry
deriving DecidableEq, Repr

/-- The loop of `search` over the registries (`package.py` lines
133–145).  `getIndexAt` is the oracle for `Registry.get_index` at a real
base path (reading and parsing `<base>/repo/meta/index.json`), returning
the index's package entries or the retrieval `Error`.  A registry whose
base path is `None` makes `get_index` raise (`os.path.join(None, ...)`),
modelled as `TypeError`.  An index error aborts the whole search with
`(None, error)`. -/
def searchLoop (query : PyStr)
    (getIndexAt : String → Except Error (List IndexEntry)) :
    List Registry → List IndexEntries →
      Except PyExc (Option (List IndexEntries) × Option Error)
  | [], acc => .ok (some acc, none)
  | reg :: rest, acc =>
    match reg.basePath with
    | none => .error .typeError
    | some bp =>
      match getIndexAt bp with
      | .error e => .ok (none, some e)
      | .ok pkgs =>
        searchLoop query getIndexAt rest
          (acc ++ [⟨reg.source, source_results query pkgs⟩])

/-- Model of `search` (`package.py` lines 112–147): iterate the
registries in resolution order, rank and filter each index's entries, and
group the survivors by source. -/
def search (query : PyStr) (hashFn : String → String) (config : Config)
    (getIndexAt : String → Except Error (List IndexEntry)) :
    Except PyExc (Option (List IndexEntries) × Option Error) := do
  let regs ← registries hashFn config
  searchLoop query getIndexAt regs []

/-- The loop of `resolve_package` (`package.py` lines 206–211): return
the first registry's package with the requested name, ignoring per-registry
lookup errors; `None` when no registry has it. -/
def resolveLoop (package_name : String) (isDir : String → Bool) :
    List Registry → Except PyExc (Option Package)
  | [] => .ok none
  | reg :: rest =>
    match reg.basePath with
    | none => .error .typeError
    | some bp => do
      let res ← get_package bp isDir package_name
      match res.1 with
      | some pkg => .ok (some pkg)
      | none => resolveLoop package_name isDir rest

/-- Model of `resolve_package` (`package.py` lines 194–211). -/
def resolve_package (hashFn : String → String) (package_name : String)
    (config : Config) (isDir : String → Bool) :
    Except PyExc (Option Package) := do
  let regs ← registries hashFn config
  resolveLoop package_name isDir regs

/-! ### Cache refresh (`update_sources`, `package.py` lines 294–374) -/

/-- On-disk content of one source's cache directory: a set of files given
as (relative path, bytes) pairs. -/
abbrev Content := List (String × String)

/-- The committed cache directory `<cacheRoot>/<source.hash()>` of one
source, observed at each step boundary of the per-source body of
`update_sources` (`package.py` lines 344–372).  Each of
`source.copy_to_cache` (line 349), `Registry(...).validate()` (line 355),
`shutil.rmtree(target_dir)` (line 364) and `shutil.move(stage_dir,
target_dir)` (line 372) is taken as one atomic step — a charitable
granularity, since `rmtree` and a cross-device `move` are themselves
file-by-file.  `old` is the prior committed content (`none` = absent);
`fetched` is the staged content when the fetch succeeds (`none` = fetch
error, which appends the error and continues without touching the
committed directory); `validateOk` tells whether the staged tree passes
validation (failure likewise leaves the committed directory alone).
Observations, in order: initial; after fetch; then — only when fetch and
validation succeeded — after validation, after `rmtree` (the committed
directory is now **absent**), and after `move` (the new content is in
place). -/
def refreshObservations (old : Option Content) (fetched : Option Content)
    (validateOk : Bool) : List (Option Content) :=
  match fetched with
  | none => [old, old]
  | some newContent =>
    if validateOk then
      [old, old, old, none, some newContent]
    else [old, old, old]

/-- Per-source refresh outcome parameters for the loop of
`update_sources`: the source's cache key (`source.hash()`), the staged
content when `copy_to_cache` succeeds (`none` = fetch error), and the
validation verdict (`Registry.validate` returns one error on failure,
`package.py` lines 586–602). -/
structure SrcSpec where
  key : String
  fetched : Option Content
  validateOk : Bool
deriving DecidableEq, Repr

/-- The committed cache as a map from cache key to directory content. -/
abbrev Cache := List (String × Content)

/-- Content committed under a cache key (`none` = directory absent). -/
def cacheGet (cache : Cache) (k : String) : Option Content :=
  (cache.find? (fun p => p.1 == k)).map (·.2)

/-- Replace the directory committed under a key: remove whatever is
there, then move the staged content in (lines 360–372). -/
def cacheSet (cache : Cache) (k : String) (c : Content) : Cache :=
  (cache.filter (fun p => !(p.1 == k))) ++ [(k, c)]

/-- The source loop of `update_sources` (`package.py` lines 339–374),
after the cache directory has been set up, the lock acquired and the
sources listed: process the sources **sequentially**, aggregating errors
in loop order.  Per source: a fetch error is recorded and the loop
continues (line 352); a validation failure is recorded and the loop
continues (line 358); on success the committed directory is replaced by
the staged content (lines 360–372).  The `rmtree` of a committed
directory is assumed not to hit an `OSError` (the source's lines 362–369
would record an error and continue). -/
def update_sources_loop (cache : Cache) : List SrcSpec → Cache × List Error
  | [] => (cache, [])
  | s :: rest =>
    match s.fetched with
    | none =>
      let r := update_sources_loop cache rest
      (r.1, Error.mk "Could not copy source to staging" :: r.2)
    | some newContent =>
      if s.validateOk then
        update_sources_loop (cacheSet cache s.key newContent) rest
      else
        let r := update_sources_loop cache rest
        (r.1, Error.mk "Source tree is not valid" :: r.2)

/-- Whether a source gets its cache directory replaced by the loop: its
fetch succeeded and its staged tree validated. -/
def SrcSpec.succeeds (s : SrcSpec) : Bool :=
  s.fetched.isSome && s.validateOk

/-- The content the loop leaves committed under key `k` coming from the
sources themselves: the staged content of the last succeeding source
with that key, if any. -/
def committedBy : List SrcSpec → String → Option Content
  | [], _ => none
  | s :: rest, k =>
    match committedBy rest k with
    | some c => some c
    | none => if s.key == k && s.succeeds then s.fetched else none

/-! ## Theorems -/

/-- Claim C9, counterexample: at the concrete target directory
`"/tmp/target"`, `HttpSource.copy_to_cache` does **not** return a typed
`NotImplementedError` as an explicit error value — it raises
`NotImplementedError` as an exception (`raise NotImplementedError`,
`package.py` line 497), so the call produces no return value at all. -/
theorem http_copy_to_cache_counterexample :
    httpCopyToCache "/tmp/target" = .error .notImplementedError ∧
    (httpCopyToCache "/tmp/target").isOk = false :=
  ⟨rfl, rfl⟩

/-- Claim C9, amended: for every target directory, `HttpSource.copy_to_cache`
raises `NotImplementedError` (an implicit control-flow signal): it never
silently succeeds and never returns an error value. -/
theorem http_copy_to_cache_raises (target_dir : String) :
    httpCopyToCache target_dir = .error .notImplementedError :=
  rfl

/-- Claim C2: at the failing input `package_name = ""`,
`Registry.get_package` raises an uncaught `IndexError` instead of
returning the `InvalidArgumentError` its own guard builds — the guard
`if len(package_name) is 0:` constructs `(None, Error('Package name must
not be empty.'))` but lacks the `return`, so control falls through to
`package_name[0]`.  For non-empty names the code behaves as claimed:
missing directory yields a not-found `Error` and no package, an existing
directory yields a `Package` bound to
`<base>/repo/packages/<TitlecasedFirstChar>/<name>`. -/
theorem get_package_empty_name_bug :
    get_package "/base" (fun _ => false) "" = .error .indexError ∧
    get_package "/base" (fun _ => false) "foo" =
      .ok (none, some ⟨"Package [foo] not found"⟩) ∧
    get_package "/base" (fun p => p == "/base/repo/packages/F/foo") "foo" =
      .ok (some ⟨"/base/repo/packages/F/foo"⟩, none) :=
  ⟨rfl, rfl, rfl⟩

/-- Claim C3, counterexample: for the directory listing
`["2.0", "1.0"]` (code points; both names are version subdirectories),
`package_versions` returns `["1.0", "2.0"]` — the reverse of the listing
order — while the claim's reverse-sorted-by-string-comparison order is
`["2.0", "1.0"]`.  The source never sorts: it reverses the `os.listdir`
order, which is arbitrary. -/
theorem package_versions_order_counterexample :
    package_versions [[50, 46, 48], [49, 46, 48]] = [[49, 46, 48], [50, 46, 48]] ∧
    package_versions_claimed [[50, 46, 48], [49, 46, 48]] =
      [[50, 46, 48], [49, 46, 48]] ∧
    package_versions [[50, 46, 48], [49, 46, 48]] ≠
      package_versions_claimed [[50, 46, 48], [49, 46, 48]] := by
  decide

/-- Claim C3, amended: `package_versions` returns exactly the
directory-listing entries that do not start with `'.'`, in the
**reverse of the listing order** (the listing order is whatever
`os.listdir` yields — not sorted); in particular, when the listing
happens to be in ascending string order the result is in descending
string order. -/
theorem package_versions_amended (listing : List PyStr) :
    package_versions listing =
      (listing.filter (fun f => !(leadMatch [46] f))).reverse ∧
    (∀ v, v ∈ package_versions listing ↔
      v ∈ listing ∧ leadMatch [46] v = false) ∧
    (List.Sorted (· ≤ ·) listing →
      List.Sorted (· ≥ ·) (package_versions listing)) := by
  refine ⟨rfl, ?_, ?_⟩
  · intro v
    simp [package_versions, List.mem_reverse, List.mem_filter]
  · intro h
    have hf : List.Sorted (· ≤ ·)
        (listing.filter (fun f => !(leadMatch [46] f))) := h.filter _
    show List.Pairwise _ _
    rw [package_versions]
    simp only [List.pairwise_reverse]
    exact hf

/-- Witness for `package_versions_amended` at the ascending listing
`["1.0", "2.0"]`: the result is sorted descending. -/
theorem package_versions_amended_witness :
    List.Sorted (· ≥ ·) (package_versions [[49, 46, 48], [50, 46, 48]]) :=
  (package_versions_amended [[49, 46, 48], [50, 46, 48]]).2.2 (by decide)

/-- Claim C1, counterexample: run the per-source refresh with a
non-empty old committed directory, a successful fetch of different new
content and a successful validation; right after the
`shutil.rmtree(target_dir)` step the committed cache directory is
observed **fully absent** — neither the complete old content nor the
complete new content, contradicting the claim that one of the two is
observable at every point. -/
theorem refresh_absent_state_counterexample :
    (none : Option Content) ∈
      refreshObservations (some [("f", "1")]) (some [("g", "2")]) true ∧
    (none : Option Content) ≠ some [("f", "1")] ∧
    (none : Option Content) ≠ some [("g", "2")] := by
  decide

/-- Claim C1, amended: at every observable step boundary of the
per-source refresh, the committed cache directory is either the complete
old content, fully absent, or the complete new content — never a mixture
of old and new; when an old directory was present, the absent state can
only arise in a run whose fetch and validation both succeeded (the old
directory is removed only after the new content has been fully staged
and validated); and the final observation is the old content on every
failure path and the new content on success. -/
theorem refresh_observations_atomic (old fetched : Option Content)
    (vOk : Bool) :
    (∀ obs ∈ refreshObservations old fetched vOk,
      obs = old ∨ obs = none ∨ (vOk = true ∧ obs = fetched)) ∧
    (∀ c, old = some c →
      (none : Option Content) ∈ refreshObservations old fetched vOk →
      ∃ nc, fetched = some nc ∧ vOk = true) ∧
    (((refreshObservations old fetched vOk).getLast? = some old ∧
        (fetched = none ∨ vOk = false)) ∨
      ∃ nc, fetched = some nc ∧ vOk = true ∧
        (refreshObservations old fetched vOk).getLast? = some (some nc)) := by
  match fetched, vOk with
  | none, vOk =>
    refine ⟨?_, ?_, Or.inl ⟨rfl, Or.inl rfl⟩⟩
    · intro obs hobs
      simp [refreshObservations] at hobs
      exact Or.inl hobs
    · intro c hc habs
      simp [refreshObservations, hc] at habs
  | some nc, true =>
    refine ⟨?_, fun c hc _ => ⟨nc, rfl, rfl⟩, Or.inr ⟨nc, rfl, rfl, rfl⟩⟩
    intro obs hobs
    simp [refreshObservations] at hobs
    rcases hobs with h | h | h
    · exact Or.inl h
    · exact Or.inr (Or.inl h)
    · exact Or.inr (Or.inr ⟨rfl, h⟩)
  | some nc, false =>
    refine ⟨?_, ?_, Or.inl ⟨rfl, Or.inr rfl⟩⟩
    · intro obs hobs
      simp [refreshObservations] at hobs
      exact Or.inl hobs
    · intro c hc habs
      simp [refreshObservations, hc] at habs

/-- Witness for `refresh_observations_atomic`: in the successful-refresh
run over old content `[("f", "1")]` and new content `[("g", "2")]`, the
absent observation is accounted for by the amended disjunction, and
absence indeed implies the staged content was validated. -/
theorem refresh_observations_atomic_witness :
    ((none : Option Content) = some [("f", "1")] ∨
      (none : Option Content) = none ∨
      (true = true ∧ (none : Option Content) = some [("g", "2")])) ∧
    ∃ nc, (some [("g", "2")] : Option Content) = some nc ∧ true = true :=
  ⟨(refresh_observations_atomic (some [("f", "1")]) (some [("g", "2")])
      true).1 none (by decide),
    (refresh_observations_atomic (some [("f", "1")]) (some [("g", "2")])
      true).2.1 [("f", "1")] rfl (by decide)⟩

/-- In a non-empty list sorted ascending, the last element bounds every
member. -/
theorem sorted_getLast_max {α : Type} [LinearOrder α] :
    ∀ l : List α, List.Sorted (· ≤ ·) l → l ≠ [] →
      ∃ m, l.getLast? = some m ∧ ∀ x ∈ l, x ≤ m
  | [], _, hne => absurd rfl hne
  | [a], _, _ => ⟨a, rfl, by simp⟩
  | a :: b :: t, h, _ => by
    have hpair := List.pairwise_cons.mp h
    obtain ⟨m, hm, hall⟩ :=
      sorted_getLast_max (b :: t) hpair.2 (List.cons_ne_nil b t)
    refine ⟨m, by rw [List.getLast?_cons_cons]; exact hm, ?_⟩
    intro x hx
    rcases List.mem_cons.mp hx with rfl | hxt
    · exact le_trans (hpair.1 b (List.mem_cons_self b t))
        (hall b (List.mem_cons_self b t))
    · exact hall x hxt

/-- Claim C4: when the package has at least one (non-hidden) version
entry, `latest_version` returns, with no error, the maximum version under
plain string (code-point) comparison; with none, it returns no version
and an error.  On the versions `["1.0", "2.0", "10.0"]` it returns
`"2.0"` (code points: `50, 46, 48`), documenting the non-semantic
ordering. -/
theorem latest_version_correct (listing : List PyStr) :
    (package_versions listing ≠ [] →
      ∃ m, latest_version listing = (some m, none) ∧
        m ∈ package_versions listing ∧
        ∀ v ∈ package_versions listing, v ≤ m) ∧
    (package_versions listing = [] →
      latest_version listing = (none, some ⟨"No versions found for package"⟩)) ∧
    latest_version [[49, 46, 48], [50, 46, 48], [49, 48, 46, 48]] =
      (some [50, 46, 48], none) := by
  refine ⟨?_, ?_, by decide⟩
  · intro hne
    have hsorted : List.Sorted (· ≤ ·) (pySortAsc (package_versions listing)) :=
      List.sorted_insertionSort _ _
    have hperm : (pySortAsc (package_versions listing)).Perm
        (package_versions listing) :=
      List.perm_insertionSort _ _
    have hsne : pySortAsc (package_versions listing) ≠ [] := by
      intro hnil
      apply hne
      have hl := hperm.length_eq
      rw [hnil] at hl
      exact List.length_eq_zero.mp hl.symm
    obtain ⟨m, hm, hall⟩ := sorted_getLast_max _ hsorted hsne
    have hcond : ((package_versions listing).length == 0) = false := by
      simp only [beq_eq_false_iff_ne, ne_eq, List.length_eq_zero]
      exact hne
    refine ⟨m, ?_, ?_, ?_⟩
    · unfold latest_version
      simp only [hcond, Bool.false_eq_true, if_false, hm]
    · exact hperm.mem_iff.mp (List.mem_of_mem_getLast? hm)
    · intro v hv
      exact hall v (hperm.mem_iff.mpr hv)
  · intro hnil
    unfold latest_version
    simp [hnil]

/-- Witness for `latest_version_correct` at the listing
`["1.0", "2.0", "10.0"]`: the maximum under string comparison is
returned. -/
theorem latest_version_correct_witness :
    ∃ m, latest_version [[49, 46, 48], [50, 46, 48], [49, 48, 46, 48]] =
        (some m, none) ∧
      m ∈ package_versions [[49, 46, 48], [50, 46, 48], [49, 48, 46, 48]] ∧
      ∀ v ∈ package_versions [[49, 46, 48], [50, 46, 48], [49, 48, 46, 48]],
        v ≤ m :=
  (latest_version_correct [[49, 46, 48], [50, 46, 48], [49, 48, 46, 48]]).1
    (by decide)

/-- Lowercasing after uppercasing a code point agrees with plain
lowercasing (ASCII case model). -/
theorem pyLowerCode_pyUpperCode (n : Nat) :
    pyLowerCode (pyUpperCode n) = pyLowerCode n := by
  simp only [pyLowerCode, pyUpperCode]
  split_ifs <;> omega

/-- Lowercasing after uppercasing a string agrees with plain
lowercasing. -/
theorem pyLower_pyUpper (s : PyStr) : pyLower (pyUpper s) = pyLower s := by
  induction s with
  | nil => rfl
  | cons a t ih =>
    show pyLowerCode (pyUpperCode a) :: pyLower (pyUpper t) =
      pyLowerCode a :: pyLower t
    rw [pyLowerCode_pyUpperCode, ih]

/-- A fold that adds `1` per satisfied element counts the satisfying
elements. -/
theorem foldl_tag_count (p : PyStr → Bool) (l : List PyStr) (b : ℚ) :
    l.foldl (fun acc t => if p t then acc + 1 else acc) b =
      b + ((l.filter p).length : ℚ) := by
  induction l generalizing b with
  | nil => simp
  | cons a t ih =>
    by_cases h : p a
    · simp only [List.foldl_cons, h, if_true, ih, List.filter_cons, if_pos h,
        List.length_cons]
      push_cast
      ring
    · simp [h, ih, List.filter_cons]

/-- A fold that appends `f x` per satisfied element builds the filtered
map. -/
theorem foldl_filter_map_append {α β : Type} (P : α → Prop) [DecidablePred P]
    (f : α → β) (l : List α) (acc : List β) :
    l.foldl (fun a x => if P x then a ++ [f x] else a) acc =
      acc ++ (l.filter (fun x => P x)).map f := by
  induction l generalizing acc with
  | nil => simp
  | cons x t ih =>
    by_cases h : P x <;> simp [h, ih, List.filter_cons]

/-- The embedded `_search_rank` satisfies the specification's closed
formula. -/
theorem search_rank_eq (pkg : IndexEntry) (query : PyStr) :
    search_rank pkg query = rankSpecFormula pkg query := by
  simp only [search_rank, rankSpecFormula]
  rw [foldl_tag_count]
  by_cases h1 : pyIn (pyLower query) (pyLower pkg.name) <;>
    by_cases h2 : pyIn (pyLower query) (pyLower pkg.description) <;>
    simp [h1, h2]

/-- Claim C6: the search rank equals `2.0` times the indicator of a
case-insensitive name match, plus `1.0` per tag containing the query,
plus `0.5` times the indicator of a description match; an index entry
appears in a registry's search results exactly when its rank reaches the
inclusive threshold `0.5`; and uppercasing the query leaves the rank
unchanged. -/
theorem search_rank_correct (pkg : IndexEntry) (query : PyStr)
    (pkgs : List IndexEntry) :
    search_rank pkg query = rankSpecFormula pkg query ∧
    source_results query pkgs =
      (pkgs.filter (fun p => searchThreshold ≤ search_rank p query)).map
        clean_package_entry ∧
    search_rank pkg (pyUpper query) = search_rank pkg query := by
  refine ⟨search_rank_eq pkg query, ?_, ?_⟩
  · unfold source_results
    rw [foldl_filter_map_append
      (fun p => searchThreshold ≤ search_rank p query) clean_package_entry]
    simp
  · simp only [search_rank, pyLower_pyUpper]

/-- Lookup distributes over dict concatenation, later entries winning. -/
theorem dictGet_append {V : Type} (d u : PyDict V) (k : String) :
    dictGet (d ++ u) k =
      match dictGet u k with
      | some v => some v
      | none => dictGet d k := by
  induction d with
  | nil => cases h : dictGet u k <;> simp [dictGet, h]
  | cons p d ih =>
    show (match dictGet (d ++ u) k with
      | some v => some v
      | none => if p.1 == k then some p.2 else none) = _
    rw [ih]
    cases h : dictGet u k <;> cases h2 : dictGet d k <;> simp [dictGet, h2]

/-- Replacing every binding of key `ko` rewrites the lookup at `ko` when
it hits, and leaves other keys alone. -/
theorem dictGet_map_set {V : Type} (d : PyDict V) (ko : String) (v : V)
    (k : String) :
    dictGet (d.map (fun p => if p.1 == ko then (ko, v) else p)) k =
      if k = ko then (if dictHasKey d ko then some v else none)
      else dictGet d k := by
  induction d with
  | nil => by_cases hk : k = ko <;> simp [dictGet, dictHasKey, hk]
  | cons p d ih =>
    show (match dictGet (d.map fun q => if q.1 == ko then (ko, v) else q) k with
      | some w => some w
      | none =>
        if (if p.1 == ko then (ko, v) else p).1 == k then
          some (if p.1 == ko then (ko, v) else p).2
        else none) = _
    rw [ih]
    by_cases hp : p.1 = ko
    · by_cases hk : k = ko
      · subst hk
        simp only [dictHasKey, List.any_cons]
        have hb : (p.1 == k) = true := by simp [hp]
        simp only [hb, Bool.true_or]
        rcases Bool.eq_false_or_eq_true (d.any fun q => q.1 == k) with
          hany | hany <;> simp [hany]
      · have hko : ko ≠ k := fun h => hk h.symm
        have hpk : p.1 ≠ k := hp ▸ hko
        simp only [hp, hk, if_false, beq_self_eq_true, if_true]
        cases hd : dictGet d k <;>
          simp [dictGet, hd, hko, hpk, beq_eq_false_iff_ne]
    · by_cases hk : k = ko
      · subst hk
        simp only [dictHasKey, List.any_cons]
        have hb : (p.1 == k) = false := by simp [hp]
        simp only [hb, Bool.false_or]
        rcases Bool.eq_false_or_eq_true (d.any fun q => q.1 == k) with
          hany | hany <;> simp [hany, hb]
      · simp only [hp, hk, if_false, beq_eq_false_iff_ne, ne_eq,
          not_false_iff]
        cases hd : dictGet d k <;> simp [dictGet, hd, hp]

/-- Lookup after a dict update: the updated key maps to the new value,
every other key is untouched. -/
theorem dictGet_dictSet {V : Type} (d : PyDict V) (ko : String) (v : V)
    (k : String) :
    dictGet (dictSet d ko v) k = if k = ko then some v else dictGet d k := by
  unfold dictSet
  by_cases hhas : dictHasKey d ko
  · simp only [hhas, if_true, dictGet_map_set, hhas]
  · simp only [hhas, Bool.false_eq_true, if_false]
    rw [dictGet_append]
    by_cases hk : k = ko
    · subst hk
      simp [dictGet]
    · have : ko ≠ k := fun h => hk h.symm
      simp [dictGet, hk, this]

/-- Lookup through a left fold of dict inserts: the pairs processed last
win; keys absent from the pairs fall through to the accumulator. -/
theorem dictGet_foldl_dictSet {V : Type} (l : List (String × V))
    (acc : PyDict V) (k : String) :
    dictGet (l.foldl (fun a p => dictSet a p.1 p.2) acc) k =
      match dictGet l k with
      | some v => some v
      | none => dictGet acc k := by
  induction l generalizing acc with
  | nil => rfl
  | cons p l ih =>
    rw [List.foldl_cons, ih]
    show _ = (match (match dictGet l k with
        | some v => some v
        | none => if p.1 == k then some p.2 else none) with
      | some v => some v
      | none => dictGet acc k)
    cases h : dictGet l k
    · rw [dictGet_dictSet]
      by_cases hp : k = p.1
      · subst hp
        simp
      · have hpk : p.1 ≠ k := fun h2 => hp h2.symm
        simp [hp, hpk]
    · simp

/-- `dict(pairs)` has the same lookup behaviour as the raw pair list
(later pairs win). -/
theorem dictGet_dictOfList {V : Type} (l : List (String × V)) (k : String) :
    dictGet (dictOfList l) k = dictGet l k := by
  unfold dictOfList
  rw [dictGet_foldl_dictSet]
  cases dictGet l k <;> rfl

/-- Claim C7: the merged install options give every key present in the
user options its user value, every key present only in the defaults its
default value, and contain nothing else — so user keys (schema-declared
or not) pass through unchanged; merging defaults `{a:1, b:2}` with user
options `{b:3, c:4}` yields `{a:1, b:3, c:4}`. -/
theorem install_merge_options_correct :
    (∀ (V : Type) (default_options user_options : PyDict V) (k : String),
      dictGet (installMergeOptions default_options user_options) k =
        match dictGet user_options k with
        | some v => some v
        | none => dictGet default_options k) ∧
    installMergeOptions [("a", 1), ("b", 2)] [("b", 3), ("c", 4)] =
      [("a", 1), ("b", 3), ("c", 4)] := by
  constructor
  · intro V d u k
    unfold installMergeOptions
    rw [dictGet_dictOfList, dictGet_append]
  · decide

/-- A key that fails the membership test looks up to nothing. -/
theorem dictGet_eq_none_of_hasKey_false {V : Type} (d : PyDict V)
    (k : String) (h : dictHasKey d k = false) : dictGet d k = none := by
  induction d with
  | nil => rfl
  | cons p d ih =>
    simp only [dictHasKey, List.any_cons, Bool.or_eq_false_iff] at h
    have ht := ih (by simpa [dictHasKey] using h.2)
    simp [dictGet, ht, h.1]

/-- The defaults comprehension over object-valued properties collects
exactly the declared `default` entries, in declaration order. -/
theorem extractDefaultsList_ok (props : PyDict JVal)
    (h : ∀ pv ∈ props, pv.2.isObj = true) :
    extractDefaultsList props = .ok (props.filterMap (fun pv =>
      match pv.2 with
      | .obj fields => (dictGet fields "default").map (fun dv => (pv.1, dv))
      | _ => none)) := by
  induction props with
  | nil => rfl
  | cons pv rest ih =>
    obtain ⟨p, v⟩ := pv
    have hobj := h (p, v) (List.mem_cons_self _ rest)
    have hrest := ih (fun q hq => h q (List.mem_cons_of_mem _ hq))
    obtain ⟨fields, rfl⟩ : ∃ fields, v = .obj fields := by
      cases v <;> simp [JVal.isObj] at hobj ⊢
    by_cases hk : dictHasKey fields "default"
    · cases hd : dictGet fields "default" <;>
        (simp only [extractDefaultsList, propDefault, hk, hd, hrest,
          List.filterMap_cons, if_true]; rfl)
    · have hkf : dictHasKey fields "default" = false := by
        simpa using hk
      have hd := dictGet_eq_none_of_hasKey_false fields "default" hkf
      simp only [extractDefaultsList, propDefault, hkf, hd, hrest,
        List.filterMap_cons]
      rfl

/-- Claim C8: default extraction returns, without error, exactly the
declared `default` values of an object schema's properties; a schema
whose top-level `type` is anything but the string `"object"`, or with no
`properties`, yields the empty mapping and no error.  The schema
`{type: "object", properties: {a: {default: 1}, b: {}}}` yields exactly
`{a: 1}`. -/
theorem extract_default_values_correct (schema : PyDict JVal) :
    (¬ dictGet schema "type" = some (.str "object") →
      extract_default_values schema = .ok ([], none)) ∧
    (dictGet schema "properties" = none →
      extract_default_values schema = .ok ([], none)) ∧
    (∀ props, dictGet schema "properties" = some (.obj props) →
      dictGet schema "type" = some (.str "object") →
      (∀ pv ∈ props, pv.2.isObj = true) →
      extract_default_values schema =
        .ok (props.filterMap (fun pv =>
          match pv.2 with
          | .obj fields =>
            (dictGet fields "default").map (fun dv => (pv.1, dv))
          | _ => none), none)) ∧
    extract_default_values
      [("type", .str "object"),
       ("properties", .obj [("a", .obj [("default", .num 1)]),
                            ("b", .obj [])])] =
      .ok ([("a", .num 1)], none) := by
  refine ⟨?_, ?_, ?_, rfl⟩
  · intro hne
    have hobj : (match dictGet schema "type" with
        | some (.str s) => s == "object"
        | _ => false) = false := by
      cases ht : dictGet schema "type" with
      | none => rfl
      | some jv =>
        cases jv <;> simp_all
    simp only [extract_default_values, hobj, Bool.not_false, Bool.true_or,
      if_true]
    rfl
  · intro hnone
    unfold extract_default_values
    rw [hnone]
    cases hm : (match dictGet schema "type" with
      | some (.str s) => s == "object"
      | _ => false) <;> simp [hm] <;> rfl
  · intro props hprops htype hall
    unfold extract_default_values
    rw [htype, hprops]
    simp only [beq_self_eq_true, Bool.not_true, Option.isSome_some,
      Bool.false_or, Option.isNone_some]
    rw [extractDefaultsList_ok props hall]
    rfl

/-- Witness for `extract_default_values_correct`: the object-schema
clause applied to the concrete schema
`{type: "object", properties: {a: {default: 1}, b: {}}}`. -/
theorem extract_default_values_correct_witness :
    extract_default_values
      [("type", .str "object"),
       ("properties", .obj [("a", .obj [("default", .num 1)]),
                            ("b", .obj [])])] =
      .ok ([("a", .num 1)], none) :=
  (extract_default_values_correct
    [("type", .str "object"),
     ("properties", .obj [("a", .obj [("default", .num 1)]),
                          ("b", .obj [])])]).2.2.1
    [("a", .obj [("default", .num 1)]), ("b", .obj [])] rfl rfl
    (by decide)

/-- `find?` commutes with a filter whose predicate is implied by the
search predicate. -/
theorem find?_filter_of_imp {α : Type} (l : List α) (p q : α → Bool)
    (h : ∀ x, p x = true → q x = true) :
    (l.filter q).find? p = l.find? p := by
  induction l with
  | nil => rfl
  | cons a l ih =>
    by_cases hq : q a
    · rw [List.filter_cons_of_pos hq]
      by_cases hp : p a
      · rw [List.find?_cons_of_pos _ hp, List.find?_cons_of_pos _ hp]
      · rw [List.find?_cons_of_neg _ hp, List.find?_cons_of_neg _ hp, ih]
    · have hp : p a = false := by
        cases hpa : p a
        · rfl
        · exact absurd (h a hpa) (by simpa using hq)
      rw [List.filter_cons_of_neg hq, ih, List.find?_cons_of_neg _ (by simp [hp])]

/-- Lookup after replacing one committed directory: the replaced key maps
to the staged content, other keys are untouched. -/
theorem cacheGet_cacheSet (cache : Cache) (k : String) (c : Content)
    (k2 : String) :
    cacheGet (cacheSet cache k c) k2 =
      if k2 = k then some c else cacheGet cache k2 := by
  unfold cacheGet cacheSet
  by_cases hk : k2 = k
  · subst hk
    rw [List.find?_append]
    have hnone : (cache.filter (fun p => !(p.1 == k2))).find?
        (fun p => p.1 == k2) = none := by
      rw [List.find?_eq_none]
      intro x hx
      have := (List.mem_filter.mp hx).2
      simp at this
      simp [this]
    have hfound : List.find? (fun p => p.1 == k2) [(k2, c)] = some (k2, c) :=
      List.find?_cons_of_pos _ (by simp)
    rw [hnone, hfound]
    simp
  · rw [List.find?_append,
      find?_filter_of_imp cache (fun p => p.1 == k2) (fun p => !(p.1 == k))
        (by
          intro x hx
          simp at hx ⊢
          rw [hx]
          exact hk)]
    have hlast : List.find? (fun p => p.1 == k2) [(k, c)] = none := by
      rw [List.find?_cons_of_neg _ (by
        simp
        exact fun he => hk he.symm)]
      rfl
    rw [hlast]
    cases hfind : cache.find? (fun p => p.1 == k2) <;> simp [hk]

/-- The cache the update loop leaves behind: keys updated by a
succeeding source hold that source's staged content, all other keys keep
their prior content. -/
theorem update_sources_loop_cacheGet (sources : List SrcSpec)
    (cache : Cache) (k : String) :
    cacheGet (update_sources_loop cache sources).1 k =
      match committedBy sources k with
      | some c => some c
      | none => cacheGet cache k := by
  induction sources generalizing cache with
  | nil => rfl
  | cons s rest ih =>
    cases hf : s.fetched with
    | none =>
      have hsucc : (s.key == k && s.succeeds) = false := by
        simp [SrcSpec.succeeds, hf]
      simp only [update_sources_loop, hf, ih, committedBy, hsucc,
        Bool.false_eq_true, if_false]
      cases committedBy rest k <;> rfl
    | some c =>
      by_cases hv : s.validateOk
      · simp only [update_sources_loop, hf, hv, if_true, ih, committedBy]
        cases hc : committedBy rest k
        · rw [cacheGet_cacheSet]
          have hsucc : s.succeeds = true := by
            simp [SrcSpec.succeeds, hf, hv]
          by_cases hk : k = s.key
          · simp [hk, hsucc, hf]
          · have : (s.key == k) = false := by
              simp
              exact fun h => hk h.symm
            simp [hk, this]
        · rfl
      · have hvf : s.validateOk = false := by simpa using hv
        have hsucc : (s.key == k && s.succeeds) = false := by
          simp [SrcSpec.succeeds, hvf]
        simp only [update_sources_loop, hf, hvf, Bool.false_eq_true,
          if_false, ih, committedBy, hsucc]
        cases committedBy rest k <;> rfl

/-- The update loop records exactly one error per non-succeeding
source. -/
theorem update_sources_loop_errors (sources : List SrcSpec) (cache : Cache) :
    (update_sources_loop cache sources).2.length =
      (sources.filter (fun s => !s.succeeds)).length := by
  induction sources generalizing cache with
  | nil => rfl
  | cons s rest ih =>
    cases hf : s.fetched
    · simp [update_sources_loop, hf, ih, SrcSpec.succeeds, List.filter_cons]
    · by_cases hv : s.validateOk <;>
        simp [update_sources_loop, hf, hv, ih, SrcSpec.succeeds,
          List.filter_cons]

/-- Keys carried by none of the sources commit nothing. -/
theorem committedBy_eq_none_of_not_mem (sources : List SrcSpec) (k : String)
    (h : k ∉ sources.map SrcSpec.key) : committedBy sources k = none := by
  induction sources with
  | nil => rfl
  | cons t rest ih =>
    simp only [List.map_cons, List.mem_cons, not_or] at h
    have hb : (t.key == k) = false := by
      simp
      exact fun he => h.1 he.symm
    simp [committedBy, ih h.2, hb]

/-- Keys for which every carrying source fails commit nothing. -/
theorem committedBy_eq_none_of_no_success (sources : List SrcSpec)
    (k : String) (h : ∀ s ∈ sources, s.key = k → s.succeeds = false) :
    committedBy sources k = none := by
  induction sources with
  | nil => rfl
  | cons t rest ih =>
    have htail := ih (fun s hs => h s (List.mem_cons_of_mem _ hs))
    by_cases hk : t.key = k
    · have := h t (List.mem_cons_self _ _) hk
      simp [committedBy, htail, this]
    · have hb : (t.key == k) = false := by simp [hk]
      simp [committedBy, htail, hb]

/-- With pairwise-distinct cache keys, a succeeding source is the one
that determines its key's committed content. -/
theorem committedBy_of_mem (sources : List SrcSpec) (s : SrcSpec)
    (hmem : s ∈ sources) (hs : s.succeeds = true)
    (hnodup : (sources.map SrcSpec.key).Nodup) :
    committedBy sources s.key = s.fetched := by
  induction sources with
  | nil => cases hmem
  | cons t rest ih =>
    have hnd : t.key ∉ rest.map SrcSpec.key ∧
        (rest.map SrcSpec.key).Nodup := by
      rw [List.map_cons, List.nodup_cons] at hnodup
      exact hnodup
    rcases List.mem_cons.mp hmem with rfl | hmem'
    · have hnone : committedBy rest s.key = none :=
        committedBy_eq_none_of_not_mem rest s.key hnd.1
      simp [committedBy, hnone, hs]
    · have hrest := ih hmem' hnd.2
      cases hsf : s.fetched with
      | none => simp [SrcSpec.succeeds, hsf] at hs
      | some c =>
        rw [hsf] at hrest
        simp [committedBy, hrest]

/-- Claim C5: in a refresh run whose sources all fetch successfully and
whose cache keys are pairwise distinct, with exactly one source failing
validation, the loop returns exactly one aggregated error, commits every
other source's staged content under that source's key, and leaves the
failing source's prior committed directory (if any) unchanged. -/
theorem update_sources_partial_failure (cache : Cache)
    (pre post : List SrcSpec) (bad : SrcSpec)
    (hgood : ∀ s ∈ pre ++ post, s.succeeds = true)
    (hbadf : bad.fetched.isSome = true) (hbadv : bad.validateOk = false)
    (hkeys : ((pre ++ bad :: post).map SrcSpec.key).Nodup) :
    (update_sources_loop cache (pre ++ bad :: post)).2.length = 1 ∧
    (∀ s ∈ pre ++ post,
      cacheGet (update_sources_loop cache (pre ++ bad :: post)).1 s.key =
        s.fetched) ∧
    cacheGet (update_sources_loop cache (pre ++ bad :: post)).1 bad.key =
      cacheGet cache bad.key := by
  have hbads : bad.succeeds = false := by
    simp [SrcSpec.succeeds, hbadv]
  have hnodup := hkeys
  rw [List.map_append] at hnodup
  have hparts := List.nodup_append.mp hnodup
  have hbad_pre : bad.key ∉ pre.map SrcSpec.key := by
    intro hmem
    exact hparts.2.2 hmem (by simp)
  have hbad_post : bad.key ∉ post.map SrcSpec.key :=
    (List.nodup_cons.mp (by simpa using hparts.2.1)).1
  refine ⟨?_, ?_, ?_⟩
  · rw [update_sources_loop_errors, List.filter_append, List.filter_cons]
    have hpre : pre.filter (fun s => !s.succeeds) = [] := by
      rw [List.filter_eq_nil_iff]
      intro s hsmem
      simp [hgood s (List.mem_append_left _ hsmem)]
    have hpost : post.filter (fun s => !s.succeeds) = [] := by
      rw [List.filter_eq_nil_iff]
      intro s hsmem
      simp [hgood s (List.mem_append_right _ hsmem)]
    simp [hpre, hpost, hbads]
  · intro s hsmem
    rw [update_sources_loop_cacheGet]
    have hsmem' : s ∈ pre ++ bad :: post := by
      rcases List.mem_append.mp hsmem with h | h
      · exact List.mem_append_left _ h
      · exact List.mem_append_right _ (List.mem_cons_of_mem _ h)
    rw [committedBy_of_mem _ s hsmem' (hgood s hsmem) hkeys]
    have hfs := hgood s hsmem
    cases hsf : s.fetched with
    | none => simp [SrcSpec.succeeds, hsf] at hfs
    | some c => rfl
  · rw [update_sources_loop_cacheGet]
    have hnone : committedBy (pre ++ bad :: post) bad.key = none := by
      apply committedBy_eq_none_of_no_success
      intro s hsmem hkey
      rcases List.mem_append.mp hsmem with h | h
      · exact absurd (hkey ▸ List.mem_map_of_mem SrcSpec.key h) hbad_pre
      · rcases List.mem_cons.mp h with rfl | h'
        · exact hbads
        · exact absurd (hkey ▸ List.mem_map_of_mem SrcSpec.key h') hbad_post
    rw [hnone]

/-- Witness for `update_sources_partial_failure`: three sources with
distinct keys; the middle one fails validation while the others succeed;
the prior cache holds old content under the failing source's key. -/
theorem update_sources_partial_failure_witness :
    (update_sources_loop [("k2", [("old", "o")])]
      ([⟨"k1", some [("a", "1")], true⟩] ++
        ⟨"k2", some [("b", "2")], false⟩ ::
          [⟨"k3", some [("c", "3")], true⟩])).2.length = 1 ∧
    (∀ s ∈ [(⟨"k1", some [("a", "1")], true⟩ : SrcSpec)] ++
        [⟨"k3", some [("c", "3")], true⟩],
      cacheGet (update_sources_loop [("k2", [("old", "o")])]
        ([⟨"k1", some [("a", "1")], true⟩] ++
          ⟨"k2", some [("b", "2")], false⟩ ::
            [⟨"k3", some [("c", "3")], true⟩])).1 s.key = s.fetched) ∧
    cacheGet (update_sources_loop [("k2", [("old", "o")])]
      ([⟨"k1", some [("a", "1")], true⟩] ++
        ⟨"k2", some [("b", "2")], false⟩ ::
          [⟨"k3", some [("c", "3")], true⟩])).1 "k2" =
      cacheGet [("k2", [("old", "o")])] "k2" :=
  update_sources_partial_failure [("k2", [("old", "o")])]
    [⟨"k1", some [("a", "1")], true⟩] [⟨"k3", some [("c", "3")], true⟩]
    ⟨"k2", some [("b", "2")], false⟩ (by decide) rfl rfl (by decide)

/-- Dropping the unparseable URIs from the configured source list does
not change the parsed sources. -/
theorem list_sources_filter (uris : List String) (cacheDir : Option String) :
    (list_sources ⟨some (uris.filter (fun u => (url_to_source u).1.isSome)),
      cacheDir⟩).1 = (list_sources ⟨some uris, cacheDir⟩).1 := by
  simp only [list_sources]
  congr 1
  induction uris with
  | nil => rfl
  | cons u rest ih =>
    by_cases hu : (url_to_source u).1.isSome
    · obtain ⟨src, hsrc⟩ := Option.isSome_iff_exists.mp hu
      simp [List.filter_cons, hu, List.filterMap_cons, hsrc, ih]
    · have hnone : (url_to_source u).1 = none := by
        cases h : (url_to_source u).1
        · rfl
        · rw [h] at hu
          simp at hu
      simp [List.filter_cons, hu, List.filterMap_cons, hnone, ih]

/-- The registries built from a configuration agree with those of the
configuration restricted to its parseable source URIs. -/
theorem registries_filter_eq (hashFn : String → String) (uris : List String)
    (cacheDir : Option String) :
    registries hashFn
        ⟨some (uris.filter (fun u => (url_to_source u).1.isSome)), cacheDir⟩ =
      registries hashFn ⟨some uris, cacheDir⟩ := by
  simp only [registries]
  rw [list_sources_filter uris cacheDir]
  rfl

/-- Claim C10: the read path silently discards per-URI parse errors.
`registries` builds one registry per successfully parsed source and drops
the error list of `list_sources`; consequently `search` and
`resolve_package` behave on any configuration exactly as they do on the
configuration with the unparseable URIs removed, reporting no error about
the dropped URIs. -/
theorem read_path_discards_parse_errors (hashFn : String → String)
    (uris : List String) (cacheDir : Option String) (query : PyStr)
    (getIndexAt : String → Except Error (List IndexEntry))
    (package_name : String) (isDir : String → Bool) :
    registries hashFn ⟨some uris, cacheDir⟩ =
      .ok ((uris.filterMap (fun u => (url_to_source u).1)).map
        (fun s => ⟨s, local_cache hashFn s ⟨some uris, cacheDir⟩⟩)) ∧
    search query hashFn ⟨some uris, cacheDir⟩ getIndexAt =
      search query hashFn
        ⟨some (uris.filter (fun u => (url_to_source u).1.isSome)), cacheDir⟩
        getIndexAt ∧
    resolve_package hashFn package_name ⟨some uris, cacheDir⟩ isDir =
      resolve_package hashFn package_name
        ⟨some (uris.filter (fun u => (url_to_source u).1.isSome)), cacheDir⟩
        isDir := by
  refine ⟨?_, ?_, ?_⟩
  · simp only [registries, list_sources, List.filterMap_map]
    rfl
  · unfold search
    rw [registries_filter_eq]
  · unfold resolve_package
    rw [registries_filter_eq]

end DcosPackage
